import Mathlib

/-!
Verification of the account-repository component (`Bank`) of this
repository's `src/main.rs`.

The Rust code keeps a `HashMap<u32, Account>` together with a `next_id : u32`
counter.  We embed the map as an association list `List (Nat × Account)` with
the usual hash-map semantics: lookup returns the first entry with the given
key, insertion replaces the entry if the key is present and appends otherwise,
removal deletes the entry and returns it.  A real `HashMap` never holds two
entries with the same key; where a theorem needs that representation
invariant it takes it as the explicit hypothesis `Bank.WF`.

Machine integers: `id` and `next_id` are `u32` in the source.  The model uses
`Nat`; in the source, overflow of `next_id += 1` is an arithmetic-overflow
program error (a panic under the default debug profile), so the counter is
modelled as the unbounded ideal that every non-aborting execution follows.
`balance` is an `f64` that the program only ever stores, copies and
overwrites — it never performs floating-point arithmetic or comparison on
it — so it is modelled by `Rat`, an opaque stand-in admitting the negative
values the spec mentions.

Errors: the source signals errors as `Result<_, String>`; the spec's
`DuplicateId` and `NotFound` error kinds are exactly the two message shapes
`duplicateIdMsg` and `notFoundMsg` below.
-/

/-- The `Account` struct of `src/main.rs`: an id, a display name and a
balance. -/
structure Account where
  id : Nat
  name : String
  balance : Rat
deriving DecidableEq

/-- Lookup in the account map: the first entry whose key matches, as
`HashMap::get`. -/
def mapGet (m : List (Nat × Account)) (k : Nat) : Option Account :=
  match m with
  | [] => none
  | (k', v) :: rest => if k' = k then some v else mapGet rest k

/-- Key-membership test, as `HashMap::contains_key`. -/
def mapContains (m : List (Nat × Account)) (k : Nat) : Bool :=
  (mapGet m k).isSome

/-- Insertion, as `HashMap::insert`: replace the entry if the key is present,
otherwise add a new entry. -/
def mapInsert (m : List (Nat × Account)) (k : Nat) (v : Account) :
    List (Nat × Account) :=
  match m with
  | [] => [(k, v)]
  | (k', v') :: rest =>
      if k' = k then (k, v) :: rest else (k', v') :: mapInsert rest k v

/-- Removal, as `HashMap::remove`: return the removed value (if any) together
with the remaining map. -/
def mapRemoveEntry (m : List (Nat × Account)) (k : Nat) :
    Option Account × List (Nat × Account) :=
  match m with
  | [] => (none, [])
  | (k', v) :: rest =>
      if k' = k then (some v, rest)
      else
        let r := mapRemoveEntry rest k
        (r.1, (k', v) :: r.2)

/-- The `Bank` struct of `src/main.rs`: the stored accounts and the counter
used for auto-assignment of ids. -/
structure Bank where
  accounts : List (Nat × Account)
  next_id : Nat
deriving DecidableEq

/-- The error message built by `Bank::add_account` on an id collision; this is
the spec's `DuplicateId` error. -/
def duplicateIdMsg (id : Nat) : String :=
  "Account with ID " ++ toString id ++ " already exists"

/-- The error message built by `Bank::remove_account` and
`Bank::update_balance` on a missing id; this is the spec's `NotFound` error. -/
def notFoundMsg (id : Nat) : String :=
  "Account with ID " ++ toString id ++ " not found"

/-- `Bank::new`: empty map, `next_id` starts at 1 (0 is the "not set"
sentinel). -/
def Bank.new : Bank :=
  { accounts := [], next_id := 1 }

/-- `Bank::add_account`.  If `account.id == 0`, the current `next_id` is
assigned to the account and `next_id` is incremented — before the collision
check, so the increment persists even if the insert then fails.  If an entry
with the (possibly reassigned) id exists, the call fails with the
`DuplicateId` message; otherwise the account is stored under its id, which is
returned.  The Rust method mutates `self`; the model returns the result
together with the post-state. -/
def Bank.add_account (b : Bank) (account : Account) :
    Except String Nat × Bank :=
  let p :=
    if account.id = 0 then
      ({ account with id := b.next_id }, { b with next_id := b.next_id + 1 })
    else
      (account, b)
  let account := p.1
  let b := p.2
  if mapContains b.accounts account.id then
    (Except.error (duplicateIdMsg account.id), b)
  else
    let account_id := account.id
    (Except.ok account_id, { b with accounts := mapInsert b.accounts account_id account })

/-- `Bank::remove_account`: `self.accounts.remove(&account_id).ok_or_else(...)`.
Returns ownership of the removed account, or the `NotFound` message. -/
def Bank.remove_account (b : Bank) (account_id : Nat) :
    Except String Account × Bank :=
  let r := mapRemoveEntry b.accounts account_id
  match r.1 with
  | some acct => (Except.ok acct, { b with accounts := r.2 })
  | none => (Except.error (notFoundMsg account_id), b)

/-- `Bank::get_account`: read-only lookup, `Option` result. -/
def Bank.get_account (b : Bank) (account_id : Nat) : Option Account :=
  mapGet b.accounts account_id

/-- `Bank::get_account_mut`: the lookup performed when handing out the
mutable view.  The view itself is the returned account value; writing through
it is `Bank.write_account_mut`. -/
def Bank.get_account_mut (b : Bank) (account_id : Nat) : Option Account :=
  mapGet b.accounts account_id

/-- Writing through the `&mut Account` view returned by
`Bank::get_account_mut`: if the account exists, the caller may overwrite any
of its fields in place (the stored entry keeps its key), turning the stored
value `a` into `f a`.  If the id is absent there is no view and nothing
happens. -/
def Bank.write_account_mut (b : Bank) (account_id : Nat) (f : Account → Account) :
    Bank :=
  match b.get_account_mut account_id with
  | some a => { b with accounts := mapInsert b.accounts account_id (f a) }
  | none => b

/-- `Bank::list_accounts`: the stored accounts as a list of (read-only)
views, in the map's unspecified order. -/
def Bank.list_accounts (b : Bank) : List Account :=
  b.accounts.map Prod.snd

/-- `Bank::update_balance`: look the account up through `get_account_mut`;
if absent fail with the `NotFound` message, otherwise overwrite `balance`
unconditionally and succeed. -/
def Bank.update_balance (b : Bank) (account_id : Nat) (new_balance : Rat) :
    Except String Unit × Bank :=
  match b.get_account_mut account_id with
  | some account =>
      (Except.ok (),
       { b with accounts := mapInsert b.accounts account_id { account with balance := new_balance } })
  | none => (Except.error (notFoundMsg account_id), b)

/-- Representation invariant of the embedding: a `HashMap` never holds two
entries with the same key. -/
def Bank.WF (b : Bank) : Prop :=
  (b.accounts.map Prod.fst).Nodup

/-- One call of the repository's public interface.  `getMut id f` is a call
of `get_account_mut` after which the caller rewrites the viewed account with
`f` (use `f = id` for a call that only reads through the view); the other
constructors are direct method calls. -/
inductive Op where
  | insert (a : Account)
  | remove (id : Nat)
  | get (id : Nat)
  | getMut (id : Nat) (f : Account → Account)
  | listAll
  | updateBalance (id : Nat) (v : Rat)

/-- The state transition performed by one interface call. -/
def Bank.step (b : Bank) : Op → Bank
  | Op.insert a => (b.add_account a).2
  | Op.remove id => (b.remove_account id).2
  | Op.get _ => b
  | Op.getMut id f => b.write_account_mut id f
  | Op.listAll => b
  | Op.updateBalance id v => (b.update_balance id v).2

/-- Run a sequence of interface calls from a given state. -/
def runFrom (b : Bank) : List Op → Bank
  | [] => b
  | op :: ops => runFrom (b.step op) ops

/-- Run a sequence of interface calls on a fresh repository. -/
def run (ops : List Op) : Bank :=
  runFrom Bank.new ops

/-- The ids returned by the successful `Insert` calls of the trace that
passed the sentinel id 0, in call order. -/
def autoAssignedIdsFrom (b : Bank) : List Op → List Nat
  | [] => []
  | op :: ops =>
      (match op with
       | Op.insert a =>
           if a.id = 0 then
             match (b.add_account a).1 with
             | Except.ok i => [i]
             | Except.error _ => []
           else []
       | _ => []) ++ autoAssignedIdsFrom (b.step op) ops

/-- Number of `Insert` calls of the trace that returned `Ok`. -/
def okInsertsFrom (b : Bank) : List Op → Nat
  | [] => 0
  | op :: ops =>
      (match op with
       | Op.insert a =>
           match (b.add_account a).1 with
           | Except.ok _ => 1
           | Except.error _ => 0
       | _ => 0) + okInsertsFrom (b.step op) ops

/-- Number of `Remove` calls of the trace that returned `Ok`. -/
def okRemovesFrom (b : Bank) : List Op → Nat
  | [] => 0
  | op :: ops =>
      (match op with
       | Op.remove i =>
           match (b.remove_account i).1 with
           | Except.ok _ => 1
           | Except.error _ => 0
       | _ => 0) + okRemovesFrom (b.step op) ops

/-- The uniqueness invariant of the spec: no two stored accounts (entries
under distinct map keys) share the same non-zero `id` field. -/
def noSharedNonzeroId (b : Bank) : Prop :=
  ∀ k1 k2 a1 a2, mapGet b.accounts k1 = some a1 → mapGet b.accounts k2 = some a2 →
    k1 ≠ k2 → a1.id ≠ 0 → a1.id ≠ a2.id

/-- An interface call is id-safe when any write it performs through a
mutable view leaves the account's `id` field as it was.  Every call except a
`getMut` whose write changes `id` is id-safe. -/
def Op.idSafe : Op → Prop
  | Op.getMut _ f => ∀ a, (f a).id = a.id
  | _ => True

/-- Auxiliary invariant: every stored account's `id` field equals the map key
it is stored under. -/
def Bank.idsMatchKeys (b : Bank) : Prop :=
  ∀ p ∈ b.accounts, (Prod.snd p).id = p.1


/-- A concrete one-account repository: a fresh repository after an explicit
insert of an account with id 1.  Note `next_id` is still 1. -/
def bankA : Bank :=
  (Bank.new.add_account { id := 1, name := "Alice", balance := 1000 }).2

/-- A concrete call sequence in which a mutable view is used to overwrite a
stored account's `id` field with another stored account's id. -/
def opsShadow : List Op :=
  [Op.insert { id := 1, name := "Alice", balance := 10 },
   Op.insert { id := 2, name := "Bob", balance := 20 },
   Op.getMut 1 (fun a => { a with id := 2 })]

/-- A concrete id-safe call sequence exercising insert, update and remove. -/
def opsSafe : List Op :=
  [Op.insert { id := 0, name := "Alice", balance := 1000 },
   Op.insert { id := 0, name := "Bob", balance := 2000 },
   Op.updateBalance 1 1500,
   Op.remove 2]

/-- A concrete call sequence with three auto-assigning inserts and an
intervening remove. -/
def opsAuto : List Op :=
  [Op.insert { id := 0, name := "Alice", balance := 1 },
   Op.insert { id := 0, name := "Bob", balance := 2 },
   Op.remove 1,
   Op.insert { id := 0, name := "Carol", balance := 3 }]

theorem mapGet_mapInsert (m : List (Nat × Account)) (k k' : Nat) (v : Account) :
    mapGet (mapInsert m k v) k' = if k = k' then some v else mapGet m k' := by
  induction m with
  | nil => simp [mapGet, mapInsert]
  | cons hd tl ih =>
    rcases hd with ⟨k0, v0⟩
    simp only [mapInsert]
    by_cases h0 : k0 = k
    · subst h0
      by_cases h1 : k0 = k' <;> simp [mapGet, h1]
    · simp only [if_neg h0, mapGet]
      by_cases h1 : k0 = k' <;> by_cases h2 : k = k' <;> simp_all

theorem mem_mapInsert (m : List (Nat × Account)) (k : Nat) (v : Account)
    (p : Nat × Account) (hp : p ∈ mapInsert m k v) : p = (k, v) ∨ p ∈ m := by
  induction m with
  | nil => simpa [mapInsert] using hp
  | cons hd tl ih =>
    rcases hd with ⟨k0, v0⟩
    by_cases h0 : k0 = k
    · subst h0
      rcases (by simpa [mapInsert] using hp : p = (k0, v) ∨ p ∈ tl) with h | h
      · exact Or.inl h
      · exact Or.inr (List.mem_cons_of_mem _ h)
    · rcases (by simpa [mapInsert, h0] using hp : p = (k0, v0) ∨ p ∈ mapInsert tl k v) with h | h
      · exact Or.inr (by simp [h])
      · rcases ih h with h | h
        · exact Or.inl h
        · exact Or.inr (List.mem_cons_of_mem _ h)

theorem mem_mapRemoveEntry (m : List (Nat × Account)) (k : Nat)
    (p : Nat × Account) (hp : p ∈ (mapRemoveEntry m k).2) : p ∈ m := by
  induction m with
  | nil => simp [mapRemoveEntry] at hp
  | cons hd tl ih =>
    rcases hd with ⟨k0, v0⟩
    by_cases h0 : k0 = k
    · exact List.mem_cons_of_mem _ (by simpa [mapRemoveEntry, h0] using hp)
    · rcases (by simpa [mapRemoveEntry, h0] using hp : p = (k0, v0) ∨ p ∈ (mapRemoveEntry tl k).2) with h | h
      · simp [h]
      · exact List.mem_cons_of_mem _ (ih h)

theorem mapGet_mem (m : List (Nat × Account)) (k : Nat) (a : Account)
    (h : mapGet m k = some a) : (k, a) ∈ m := by
  induction m with
  | nil => simp [mapGet] at h
  | cons hd tl ih =>
    rcases hd with ⟨k0, v0⟩
    by_cases h0 : k0 = k
    · subst h0
      simp [mapGet] at h
      simp [h]
    · simp only [mapGet, if_neg h0] at h
      exact List.mem_cons_of_mem _ (ih h)

theorem mapRemoveEntry_fst (m : List (Nat × Account)) (k : Nat) :
    (mapRemoveEntry m k).1 = mapGet m k := by
  induction m with
  | nil => simp [mapRemoveEntry, mapGet]
  | cons hd tl ih =>
    rcases hd with ⟨k0, v0⟩
    by_cases h0 : k0 = k <;> simp [mapRemoveEntry, mapGet, h0, ih]

theorem mapRemoveEntry_absent (m : List (Nat × Account)) (k : Nat)
    (h : mapGet m k = none) : (mapRemoveEntry m k).2 = m := by
  induction m with
  | nil => simp [mapRemoveEntry]
  | cons hd tl ih =>
    rcases hd with ⟨k0, v0⟩
    by_cases h0 : k0 = k
    · simp [mapGet, h0] at h
    · simp only [mapGet, if_neg h0] at h
      simp [mapRemoveEntry, h0, ih h]

theorem mapGet_eq_none_iff (m : List (Nat × Account)) (k : Nat) :
    mapGet m k = none ↔ k ∉ m.map Prod.fst := by
  induction m with
  | nil => simp [mapGet]
  | cons hd tl ih =>
    rcases hd with ⟨k0, v0⟩
    by_cases h0 : k0 = k <;> simp [mapGet, h0, ih, Ne.symm]

theorem mapGet_mapRemoveEntry_self (m : List (Nat × Account)) (k : Nat)
    (hnd : (m.map Prod.fst).Nodup) : mapGet (mapRemoveEntry m k).2 k = none := by
  induction m with
  | nil => simp [mapRemoveEntry, mapGet]
  | cons hd tl ih =>
    rcases hd with ⟨k0, v0⟩
    simp only [List.map_cons, List.nodup_cons] at hnd
    by_cases h0 : k0 = k
    · subst h0
      simpa [mapRemoveEntry, mapGet_eq_none_iff] using hnd.1
    · simpa [mapRemoveEntry, h0, mapGet] using ih hnd.2

theorem length_mapInsert_absent (m : List (Nat × Account)) (k : Nat) (v : Account)
    (h : mapGet m k = none) : (mapInsert m k v).length = m.length + 1 := by
  induction m with
  | nil => simp [mapInsert]
  | cons hd tl ih =>
    rcases hd with ⟨k0, v0⟩
    by_cases h0 : k0 = k
    · simp [mapGet, h0] at h
    · simp only [mapGet, if_neg h0] at h
      simp [mapInsert, h0, ih h]

theorem length_mapInsert_present (m : List (Nat × Account)) (k : Nat) (v a : Account)
    (h : mapGet m k = some a) : (mapInsert m k v).length = m.length := by
  induction m with
  | nil => simp [mapGet] at h
  | cons hd tl ih =>
    rcases hd with ⟨k0, v0⟩
    by_cases h0 : k0 = k
    · simp [mapInsert, h0]
    · simp only [mapGet, if_neg h0] at h
      simp [mapInsert, h0, ih h]

theorem length_mapRemoveEntry (m : List (Nat × Account)) (k : Nat) (a : Account)
    (h : mapGet m k = some a) : ((mapRemoveEntry m k).2).length + 1 = m.length := by
  induction m with
  | nil => simp [mapGet] at h
  | cons hd tl ih =>
    rcases hd with ⟨k0, v0⟩
    by_cases h0 : k0 = k
    · simp [mapRemoveEntry, h0]
    · simp only [mapGet, if_neg h0] at h
      simp [mapRemoveEntry, h0, ih h]

theorem mapInsert_same (m : List (Nat × Account)) (k : Nat) (v : Account)
    (h : mapGet m k = some v) : mapInsert m k v = m := by
  induction m with
  | nil => simp [mapGet] at h
  | cons hd tl ih =>
    rcases hd with ⟨k0, v0⟩
    by_cases h0 : k0 = k
    · subst h0
      have hv : v0 = v := by simpa [mapGet] using h
      subst hv
      simp [mapInsert]
    · simp only [mapGet, if_neg h0] at h
      simp [mapInsert, h0, ih h]

theorem keys_mapInsert_present (m : List (Nat × Account)) (k : Nat) (v a : Account)
    (h : mapGet m k = some a) :
    (mapInsert m k v).map Prod.fst = m.map Prod.fst := by
  induction m with
  | nil => simp [mapGet] at h
  | cons hd tl ih =>
    rcases hd with ⟨k0, v0⟩
    by_cases h0 : k0 = k
    · simp [mapInsert, h0]
    · simp only [mapGet, if_neg h0] at h
      simp [mapInsert, h0, ih h]

theorem keys_mapInsert_absent (m : List (Nat × Account)) (k : Nat) (v : Account)
    (h : mapGet m k = none) :
    (mapInsert m k v).map Prod.fst = m.map Prod.fst ++ [k] := by
  induction m with
  | nil => simp [mapInsert]
  | cons hd tl ih =>
    rcases hd with ⟨k0, v0⟩
    by_cases h0 : k0 = k
    · simp [mapGet, h0] at h
    · simp only [mapGet, if_neg h0] at h
      simp [mapInsert, h0, ih h]

theorem keys_mapRemoveEntry_sublist (m : List (Nat × Account)) (k : Nat) :
    ((mapRemoveEntry m k).2.map Prod.fst).Sublist (m.map Prod.fst) := by
  induction m with
  | nil => simp [mapRemoveEntry]
  | cons hd tl ih =>
    rcases hd with ⟨k0, v0⟩
    by_cases h0 : k0 = k
    · simp only [mapRemoveEntry, if_pos h0]
      exact (List.Sublist.refl _).cons _
    · simp only [mapRemoveEntry, if_neg h0, List.map_cons]
      exact ih.cons₂ _

theorem mapContains_false_iff (m : List (Nat × Account)) (k : Nat) :
    mapContains m k = false ↔ mapGet m k = none := by
  cases h : mapGet m k <;> simp [mapContains, h]

theorem mapContains_true_iff (m : List (Nat × Account)) (k : Nat) :
    mapContains m k = true ↔ ∃ a, mapGet m k = some a := by
  cases h : mapGet m k <;> simp [mapContains, h]

theorem add_account_zero_dup (b : Bank) (a : Account) (ha : a.id = 0)
    (hc : mapContains b.accounts b.next_id = true) :
    b.add_account a =
      (Except.error (duplicateIdMsg b.next_id), { b with next_id := b.next_id + 1 }) := by
  simp [Bank.add_account, ha, hc]

theorem add_account_zero_ok (b : Bank) (a : Account) (ha : a.id = 0)
    (hc : mapContains b.accounts b.next_id = false) :
    b.add_account a =
      (Except.ok b.next_id,
       { accounts := mapInsert b.accounts b.next_id { a with id := b.next_id },
         next_id := b.next_id + 1 }) := by
  simp [Bank.add_account, ha, hc]

theorem add_account_pos_dup (b : Bank) (a : Account) (ha : ¬a.id = 0)
    (hc : mapContains b.accounts a.id = true) :
    b.add_account a = (Except.error (duplicateIdMsg a.id), b) := by
  simp [Bank.add_account, ha, hc]

theorem add_account_pos_ok (b : Bank) (a : Account) (ha : ¬a.id = 0)
    (hc : mapContains b.accounts a.id = false) :
    b.add_account a = (Except.ok a.id, { b with accounts := mapInsert b.accounts a.id a }) := by
  simp [Bank.add_account, ha, hc]

theorem remove_account_present (b : Bank) (i : Nat) (a : Account)
    (h : mapGet b.accounts i = some a) :
    b.remove_account i =
      (Except.ok a, { b with accounts := (mapRemoveEntry b.accounts i).2 }) := by
  simp [Bank.remove_account, mapRemoveEntry_fst, h]

theorem remove_account_absent (b : Bank) (i : Nat)
    (h : mapGet b.accounts i = none) :
    b.remove_account i = (Except.error (notFoundMsg i), b) := by
  simp [Bank.remove_account, mapRemoveEntry_fst, h]

theorem update_balance_present (b : Bank) (i : Nat) (v : Rat) (a : Account)
    (h : mapGet b.accounts i = some a) :
    b.update_balance i v =
      (Except.ok (), { b with accounts := mapInsert b.accounts i { a with balance := v } }) := by
  simp [Bank.update_balance, Bank.get_account_mut, h]

theorem update_balance_absent (b : Bank) (i : Nat) (v : Rat)
    (h : mapGet b.accounts i = none) :
    b.update_balance i v = (Except.error (notFoundMsg i), b) := by
  simp [Bank.update_balance, Bank.get_account_mut, h]

theorem write_account_mut_present (b : Bank) (i : Nat) (f : Account → Account)
    (a : Account) (h : mapGet b.accounts i = some a) :
    b.write_account_mut i f = { b with accounts := mapInsert b.accounts i (f a) } := by
  simp [Bank.write_account_mut, Bank.get_account_mut, h]

theorem write_account_mut_absent (b : Bank) (i : Nat) (f : Account → Account)
    (h : mapGet b.accounts i = none) :
    b.write_account_mut i f = b := by
  simp [Bank.write_account_mut, Bank.get_account_mut, h]

theorem add_account_next_id (b : Bank) (a : Account) :
    (b.add_account a).2.next_id = if a.id = 0 then b.next_id + 1 else b.next_id := by
  by_cases ha : a.id = 0
  · by_cases hc : mapContains b.accounts b.next_id = true
    · simp [add_account_zero_dup b a ha hc, ha]
    · simp [add_account_zero_ok b a ha (by simpa using hc), ha]
  · by_cases hc : mapContains b.accounts a.id = true
    · simp [add_account_pos_dup b a ha hc, ha]
    · simp [add_account_pos_ok b a ha (by simpa using hc), ha]

theorem remove_account_next_id (b : Bank) (i : Nat) :
    (b.remove_account i).2.next_id = b.next_id := by
  cases h : mapGet b.accounts i with
  | none => simp [remove_account_absent b i h]
  | some a => simp [remove_account_present b i a h]

theorem update_balance_next_id (b : Bank) (i : Nat) (v : Rat) :
    (b.update_balance i v).2.next_id = b.next_id := by
  cases h : mapGet b.accounts i with
  | none => simp [update_balance_absent b i v h]
  | some a => simp [update_balance_present b i v a h]

theorem write_account_mut_next_id (b : Bank) (i : Nat) (f : Account → Account) :
    (b.write_account_mut i f).next_id = b.next_id := by
  cases h : mapGet b.accounts i with
  | none => simp [write_account_mut_absent b i f h]
  | some a => simp [write_account_mut_present b i f a h]

theorem next_id_step_le (b : Bank) (op : Op) : b.next_id ≤ (b.step op).next_id := by
  cases op with
  | insert a =>
      have h := add_account_next_id b a
      simp only [Bank.step]
      split at h <;> omega
  | remove i => exact Nat.le_of_eq (remove_account_next_id b i).symm
  | get i => exact Nat.le_refl _
  | getMut i f => exact Nat.le_of_eq (write_account_mut_next_id b i f).symm
  | listAll => exact Nat.le_refl _
  | updateBalance i v => exact Nat.le_of_eq (update_balance_next_id b i v).symm

theorem runFrom_cons (b : Bank) (op : Op) (ops : List Op) :
    runFrom b (op :: ops) = runFrom (b.step op) ops := rfl

theorem runFrom_append (b : Bank) (l1 l2 : List Op) :
    runFrom b (l1 ++ l2) = runFrom (runFrom b l1) l2 := by
  induction l1 generalizing b with
  | nil => rfl
  | cons op l1 ih => simpa [runFrom_cons] using ih (b.step op)

theorem next_id_runFrom_le (ops : List Op) (b : Bank) :
    b.next_id ≤ (runFrom b ops).next_id := by
  induction ops generalizing b with
  | nil => exact Nat.le_refl _
  | cons op ops ih => exact Nat.le_trans (next_id_step_le b op) (ih (b.step op))

theorem idsMatchKeys_step (b : Bank) (op : Op) (hs : op.idSafe)
    (h : b.idsMatchKeys) : (b.step op).idsMatchKeys := by
  cases op with
  | insert a =>
      intro p hp
      simp only [Bank.step] at hp
      by_cases ha : a.id = 0
      · by_cases hc : mapContains b.accounts b.next_id = true
        · rw [add_account_zero_dup b a ha hc] at hp
          exact h p hp
        · rw [add_account_zero_ok b a ha (by simpa using hc)] at hp
          rcases mem_mapInsert _ _ _ _ hp with he | hm
          · subst he; rfl
          · exact h p hm
      · by_cases hc : mapContains b.accounts a.id = true
        · rw [add_account_pos_dup b a ha hc] at hp
          exact h p hp
        · rw [add_account_pos_ok b a ha (by simpa using hc)] at hp
          rcases mem_mapInsert _ _ _ _ hp with he | hm
          · subst he; rfl
          · exact h p hm
  | remove i =>
      intro p hp
      simp only [Bank.step] at hp
      cases hm : mapGet b.accounts i with
      | none => rw [remove_account_absent b i hm] at hp; exact h p hp
      | some a =>
          rw [remove_account_present b i a hm] at hp
          exact h p (mem_mapRemoveEntry _ _ _ hp)
  | get i => exact h
  | getMut i f =>
      intro p hp
      simp only [Bank.step] at hp
      cases hm : mapGet b.accounts i with
      | none => rw [write_account_mut_absent b i f hm] at hp; exact h p hp
      | some a =>
          rw [write_account_mut_present b i f a hm] at hp
          rcases mem_mapInsert _ _ _ _ hp with he | hmem
          · subst he
            have hai : a.id = i := h (i, a) (mapGet_mem _ _ _ hm)
            simp only [Op.idSafe] at hs
            simpa [hs a] using hai
          · exact h p hmem
  | listAll => exact h
  | updateBalance i v =>
      intro p hp
      simp only [Bank.step] at hp
      cases hm : mapGet b.accounts i with
      | none => rw [update_balance_absent b i v hm] at hp; exact h p hp
      | some a =>
          rw [update_balance_present b i v a hm] at hp
          rcases mem_mapInsert _ _ _ _ hp with he | hmem
          · subst he
            exact h (i, a) (mapGet_mem _ _ _ hm)
          · exact h p hmem

theorem idsMatchKeys_runFrom (ops : List Op) (b : Bank)
    (hs : ∀ op ∈ ops, Op.idSafe op) (h : b.idsMatchKeys) :
    (runFrom b ops).idsMatchKeys := by
  induction ops generalizing b with
  | nil => exact h
  | cons op ops ih =>
      exact ih (b.step op) (fun o ho => hs o (List.mem_cons_of_mem _ ho))
        (idsMatchKeys_step b op (hs op (List.mem_cons_self _ _)) h)

theorem noSharedNonzeroId_of_idsMatchKeys (b : Bank) (h : b.idsMatchKeys) :
    noSharedNonzeroId b := by
  intro k1 k2 a1 a2 h1 h2 hk _
  have e1 : a1.id = k1 := h (k1, a1) (mapGet_mem _ _ _ h1)
  have e2 : a2.id = k2 := h (k2, a2) (mapGet_mem _ _ _ h2)
  rw [e1, e2]
  exact hk

theorem WF_step (b : Bank) (op : Op) (h : b.WF) : (b.step op).WF := by
  cases op with
  | insert a =>
      show ((b.add_account a).2.accounts.map Prod.fst).Nodup
      by_cases ha : a.id = 0
      · by_cases hc : mapContains b.accounts b.next_id = true
        · rw [add_account_zero_dup b a ha hc]
          exact h
        · have hn : mapGet b.accounts b.next_id = none :=
            (mapContains_false_iff _ _).mp (by simpa using hc)
          rw [add_account_zero_ok b a ha (by simpa using hc)]
          simp only [keys_mapInsert_absent _ _ _ hn, List.nodup_append]
          refine ⟨h, List.nodup_singleton _, ?_⟩
          simp [List.disjoint_singleton, (mapGet_eq_none_iff _ _).mp hn]
      · by_cases hc : mapContains b.accounts a.id = true
        · rw [add_account_pos_dup b a ha hc]
          exact h
        · have hn : mapGet b.accounts a.id = none :=
            (mapContains_false_iff _ _).mp (by simpa using hc)
          rw [add_account_pos_ok b a ha (by simpa using hc)]
          simp only [keys_mapInsert_absent _ _ _ hn, List.nodup_append]
          refine ⟨h, List.nodup_singleton _, ?_⟩
          simp [List.disjoint_singleton, (mapGet_eq_none_iff _ _).mp hn]
  | remove i =>
      show ((b.remove_account i).2.accounts.map Prod.fst).Nodup
      cases hm : mapGet b.accounts i with
      | none => rw [remove_account_absent b i hm]; exact h
      | some a =>
          rw [remove_account_present b i a hm]
          exact (keys_mapRemoveEntry_sublist b.accounts i).nodup h
  | get i => exact h
  | getMut i f =>
      show ((b.write_account_mut i f).accounts.map Prod.fst).Nodup
      cases hm : mapGet b.accounts i with
      | none => rw [write_account_mut_absent b i f hm]; exact h
      | some a =>
          rw [write_account_mut_present b i f a hm]
          simpa [keys_mapInsert_present _ _ _ _ hm] using h
  | listAll => exact h
  | updateBalance i v =>
      show ((b.update_balance i v).2.accounts.map Prod.fst).Nodup
      cases hm : mapGet b.accounts i with
      | none => rw [update_balance_absent b i v hm]; exact h
      | some a =>
          rw [update_balance_present b i v a hm]
          simpa [keys_mapInsert_present _ _ _ _ hm] using h

theorem WF_runFrom (ops : List Op) (b : Bank) (h : b.WF) : (runFrom b ops).WF := by
  induction ops generalizing b with
  | nil => exact h
  | cons op ops ih => exact ih (b.step op) (WF_step b op h)

theorem WF_run (ops : List Op) : (run ops).WF := by
  have : Bank.new.WF := by simp [Bank.new, Bank.WF]
  exact WF_runFrom ops Bank.new this

theorem autoIds_cons_cases (b : Bank) (op : Op) (ops : List Op) :
    autoAssignedIdsFrom b (op :: ops) = autoAssignedIdsFrom (b.step op) ops ∨
    (autoAssignedIdsFrom b (op :: ops) =
        b.next_id :: autoAssignedIdsFrom (b.step op) ops ∧
      (b.step op).next_id = b.next_id + 1) := by
  cases op with
  | insert a =>
      by_cases ha : a.id = 0
      · by_cases hc : mapContains b.accounts b.next_id = true
        · left
          simp [autoAssignedIdsFrom, ha, add_account_zero_dup b a ha hc]
        · right
          have e := add_account_zero_ok b a ha (by simpa using hc)
          constructor
          · simp [autoAssignedIdsFrom, ha, e]
          · simp [Bank.step, e]
      · left
        simp [autoAssignedIdsFrom, ha]
  | remove i => left; rfl
  | get i => left; rfl
  | getMut i f => left; rfl
  | listAll => left; rfl
  | updateBalance i v => left; rfl

theorem autoIds_bounds (ops : List Op) : ∀ b : Bank,
    List.Pairwise (· < ·) (autoAssignedIdsFrom b ops) ∧
    ∀ i ∈ autoAssignedIdsFrom b ops, b.next_id ≤ i ∧ i < (runFrom b ops).next_id := by
  induction ops with
  | nil => intro b; simp [autoAssignedIdsFrom]
  | cons op ops ih =>
      intro b
      obtain ⟨IH1, IH2⟩ := ih (b.step op)
      have hle := next_id_step_le b op
      have hrun : runFrom b (op :: ops) = runFrom (b.step op) ops := rfl
      rcases autoIds_cons_cases b op ops with hca | ⟨hca, hstep⟩
      · rw [hca, hrun]
        refine ⟨IH1, ?_⟩
        intro i hi
        obtain ⟨h1, h2⟩ := IH2 i hi
        exact ⟨Nat.le_trans hle h1, h2⟩
      · rw [hca, hrun]
        constructor
        · refine List.Pairwise.cons ?_ IH1
          intro j hj
          have := (IH2 j hj).1
          omega
        · intro i hi
          rcases List.mem_cons.mp hi with rfl | hi'
          · refine ⟨Nat.le_refl _, ?_⟩
            have := next_id_runFrom_le ops (b.step op)
            omega
          · obtain ⟨h1, h2⟩ := IH2 i hi'
            exact ⟨by omega, h2⟩

theorem step_length_delta (b : Bank) (op : Op) :
    (b.step op).accounts.length + okRemovesFrom b [op] =
      b.accounts.length + okInsertsFrom b [op] := by
  cases op with
  | insert a =>
      by_cases ha : a.id = 0
      · by_cases hc : mapContains b.accounts b.next_id = true
        · simp [Bank.step, okInsertsFrom, okRemovesFrom,
                add_account_zero_dup b a ha hc]
        · have hn : mapGet b.accounts b.next_id = none :=
            (mapContains_false_iff _ _).mp (by simpa using hc)
          simp [Bank.step, okInsertsFrom, okRemovesFrom,
                add_account_zero_ok b a ha (by simpa using hc),
                length_mapInsert_absent _ _ _ hn]
      · by_cases hc : mapContains b.accounts a.id = true
        · simp [Bank.step, okInsertsFrom, okRemovesFrom,
                add_account_pos_dup b a ha hc]
        · have hn : mapGet b.accounts a.id = none :=
            (mapContains_false_iff _ _).mp (by simpa using hc)
          simp [Bank.step, okInsertsFrom, okRemovesFrom,
                add_account_pos_ok b a ha (by simpa using hc),
                length_mapInsert_absent _ _ _ hn]
  | remove i =>
      cases hm : mapGet b.accounts i with
      | none =>
          simp [Bank.step, okInsertsFrom, okRemovesFrom,
                remove_account_absent b i hm]
      | some a =>
          have hl := length_mapRemoveEntry b.accounts i a hm
          simp only [Bank.step, okInsertsFrom, okRemovesFrom,
                remove_account_present b i a hm]
          omega
  | get i => rfl
  | listAll => rfl
  | getMut i f =>
      cases hm : mapGet b.accounts i with
      | none =>
          simp [Bank.step, okInsertsFrom, okRemovesFrom,
                write_account_mut_absent b i f hm]
      | some a =>
          simp [Bank.step, okInsertsFrom, okRemovesFrom,
                write_account_mut_present b i f a hm,
                length_mapInsert_present _ _ _ _ hm]
  | updateBalance i v =>
      cases hm : mapGet b.accounts i with
      | none =>
          simp [Bank.step, okInsertsFrom, okRemovesFrom,
                update_balance_absent b i v hm]
      | some a =>
          simp [Bank.step, okInsertsFrom, okRemovesFrom,
                update_balance_present b i v a hm,
                length_mapInsert_present _ _ _ _ hm]

theorem okInsertsFrom_cons (b : Bank) (op : Op) (ops : List Op) :
    okInsertsFrom b (op :: ops) =
      okInsertsFrom b [op] + okInsertsFrom (b.step op) ops := by
  simp [okInsertsFrom]

theorem okRemovesFrom_cons (b : Bank) (op : Op) (ops : List Op) :
    okRemovesFrom b (op :: ops) =
      okRemovesFrom b [op] + okRemovesFrom (b.step op) ops := by
  simp [okRemovesFrom]

theorem size_runFrom (ops : List Op) : ∀ b : Bank,
    (runFrom b ops).accounts.length + okRemovesFrom b ops =
      b.accounts.length + okInsertsFrom b ops := by
  induction ops with
  | nil => intro b; simp [runFrom, okRemovesFrom, okInsertsFrom]
  | cons op ops ih =>
      intro b
      have IH := ih (b.step op)
      have hd := step_length_delta b op
      rw [runFrom_cons, okInsertsFrom_cons, okRemovesFrom_cons]
      omega

/-- C1, counterexample to the claim as stated: insert an account with
explicit id 1 into a fresh repository (`next_id` is still 1), then insert a
sentinel-0 account.  The insert fails with the `DuplicateId` error, yet the
repository is not left unchanged: `next_id` was already incremented from 1
to 2 before the collision check. -/
theorem C1_counterexample :
    ((bankA.add_account { id := 0, name := "Bob", balance := 2000 }).1 =
        Except.error (duplicateIdMsg 1)) ∧
      (bankA.add_account { id := 0, name := "Bob", balance := 2000 }).2.next_id ≠
        bankA.next_id := by
  refine ⟨rfl, ?_⟩
  decide

/-- C1 (amended): if Insert fails with the `DuplicateId` error then the
stored accounts are exactly as before — in particular Get on the colliding
id afterwards returns the original stored record untouched — and, when the
supplied id was an explicit nonzero value, `next_id` also keeps its prior
value, so the repository is fully unchanged; when the supplied id was the
sentinel 0, `next_id` has been incremented by one despite the failure. -/
theorem C1_duplicate_insert_leaves_accounts_unchanged (b : Bank) (a : Account)
    (e : String) (h : (b.add_account a).1 = Except.error e) :
    (b.add_account a).2.accounts = b.accounts ∧
    (∀ k, (b.add_account a).2.get_account k = b.get_account k) ∧
    (a.id ≠ 0 → (b.add_account a).2 = b) ∧
    (a.id = 0 → (b.add_account a).2.next_id = b.next_id + 1) := by
  by_cases ha : a.id = 0
  · by_cases hc : mapContains b.accounts b.next_id = true
    · rw [add_account_zero_dup b a ha hc]
      exact ⟨rfl, fun k => rfl, fun hna => absurd ha hna, fun _ => rfl⟩
    · rw [add_account_zero_ok b a ha (by simpa using hc)] at h
      simp at h
  · by_cases hc : mapContains b.accounts a.id = true
    · rw [add_account_pos_dup b a ha hc]
      exact ⟨rfl, fun k => rfl, fun _ => rfl, fun hz => absurd hz ha⟩
    · rw [add_account_pos_ok b a ha (by simpa using hc)] at h
      simp at h

/-- C1, witness: a colliding explicit-id insert into the concrete repository
`bankA` fails and leaves it fully unchanged. -/
theorem C1_witness :
    ((bankA.add_account { id := 1, name := "Eve", balance := 5 }).1 =
        Except.error (duplicateIdMsg 1)) ∧
      (bankA.add_account { id := 1, name := "Eve", balance := 5 }).2.accounts =
        bankA.accounts ∧
      (bankA.add_account { id := 1, name := "Eve", balance := 5 }).2 = bankA := by
  have h := C1_duplicate_insert_leaves_accounts_unchanged bankA
    { id := 1, name := "Eve", balance := 5 } (duplicateIdMsg 1) rfl
  exact ⟨rfl, h.1, h.2.2.1 (by decide)⟩

/-- C2, counterexample to the claim as stated: after inserting accounts with
ids 1 and 2, the caller uses the exclusive-mutable view of
`get_account_mut 1` (a `GetMutable` operation of the interface) to overwrite
that account's `id` field with 2.  The repository then stores two accounts
that share the non-zero id 2. -/
theorem C2_counterexample : ¬ noSharedNonzeroId (run opsShadow) := by
  intro h
  exact (h 1 2 { id := 2, name := "Alice", balance := 10 }
      { id := 2, name := "Bob", balance := 20 } rfl rfl (by decide) (by decide)) rfl

/-- C2 (amended): after any sequence of the repository's operations from a
fresh repository in which no write through a `GetMutable` view changes an
account's `id` field (Insert, Remove, Get, ListAll and UpdateBalance are
always id-safe), no two stored accounts share the same non-zero id. -/
theorem C2_no_shared_nonzero_id (ops : List Op)
    (hs : ∀ op ∈ ops, Op.idSafe op) : noSharedNonzeroId (run ops) := by
  refine noSharedNonzeroId_of_idsMatchKeys _ ?_
  refine idsMatchKeys_runFrom ops Bank.new hs ?_
  intro p hp
  simp [Bank.new] at hp

/-- C2, witness: the id-safe sequence `opsSafe` (two auto-assigning inserts,
a balance update and a remove) reaches a state with no shared non-zero id. -/
theorem C2_witness :
    (∀ op ∈ opsSafe, Op.idSafe op) ∧ noSharedNonzeroId (run opsSafe) := by
  have hs : ∀ op ∈ opsSafe, Op.idSafe op := by
    intro op hop
    simp only [opsSafe, List.mem_cons, List.not_mem_nil, or_false] at hop
    rcases hop with h | h | h | h <;> subst h <;> trivial
  exact ⟨hs, C2_no_shared_nonzero_id opsSafe hs⟩

/-- C3, counterexample to the claim as stated: in the concrete repository
`bankA` (one explicitly inserted account with id 1, `next_id` still 1),
Insert of an account with the sentinel id 0 fails with the `DuplicateId`
error, because the auto-assigned id `next_id = 1` is already occupied. -/
theorem C3_counterexample :
    (bankA.add_account { id := 0, name := "Carol", balance := 7 }).1 =
      Except.error (duplicateIdMsg 1) := rfl

/-- C3 (amended): Insert of an account with the sentinel id 0 fails with
`DuplicateId` exactly when an account whose id equals the current `next_id`
is already stored (which only an explicit nonzero-id insert can have
caused); whenever `next_id` is unoccupied — in particular in any repository
populated purely by auto-assignment — a sentinel-0 Insert never fails. -/
theorem C3_sentinel_insert_failure_iff (b : Bank) (a : Account)
    (ha : a.id = 0) :
    ((b.add_account a).1 = Except.error (duplicateIdMsg b.next_id) ↔
      mapContains b.accounts b.next_id = true) ∧
    (mapContains b.accounts b.next_id = false →
      (b.add_account a).1 = Except.ok b.next_id) := by
  by_cases hc : mapContains b.accounts b.next_id = true
  · simp [add_account_zero_dup b a ha hc, hc]
  · have hc' : mapContains b.accounts b.next_id = false := by simpa using hc
    simp [add_account_zero_ok b a ha hc', hc']

/-- C3, witness: on a fresh repository, whose `next_id` is unoccupied, a
sentinel-0 insert succeeds with the auto-assigned id 1. -/
theorem C3_witness :
    ({ id := 0, name := "Alice", balance := 1000 } : Account).id = 0 ∧
      mapContains Bank.new.accounts Bank.new.next_id = false ∧
      (Bank.new.add_account { id := 0, name := "Alice", balance := 1000 }).1 =
        Except.ok Bank.new.next_id := by
  refine ⟨rfl, rfl, ?_⟩
  exact (C3_sentinel_insert_failure_iff Bank.new
    { id := 0, name := "Alice", balance := 1000 } rfl).2 rfl

/-- C4 (confirmed): if the inserted account's id is 0, Insert assigns it the
current `next_id` (the stored record and the returned id on success are
exactly that), and increments `next_id` by one; if the id is nonzero, the
caller-supplied id is kept as-is, `next_id` is unchanged, and on success the
account is stored untouched under that id, which is returned. -/
theorem C4_insert_id_assignment (b : Bank) (a : Account) :
    (a.id = 0 →
      (b.add_account a).2.next_id = b.next_id + 1 ∧
      ∀ i, (b.add_account a).1 = Except.ok i →
        i = b.next_id ∧
        mapGet (b.add_account a).2.accounts i = some { a with id := b.next_id }) ∧
    (a.id ≠ 0 →
      (b.add_account a).2.next_id = b.next_id ∧
      ∀ i, (b.add_account a).1 = Except.ok i →
        i = a.id ∧ mapGet (b.add_account a).2.accounts i = some a) := by
  constructor
  · intro ha
    by_cases hc : mapContains b.accounts b.next_id = true
    · rw [add_account_zero_dup b a ha hc]
      refine ⟨rfl, ?_⟩
      intro i hi
      simp at hi
    · rw [add_account_zero_ok b a ha (by simpa using hc)]
      refine ⟨rfl, ?_⟩
      intro i hi
      simp only [Except.ok.injEq] at hi
      subst hi
      simp [mapGet_mapInsert]
  · intro ha
    by_cases hc : mapContains b.accounts a.id = true
    · rw [add_account_pos_dup b a ha hc]
      refine ⟨rfl, ?_⟩
      intro i hi
      simp at hi
    · rw [add_account_pos_ok b a ha (by simpa using hc)]
      refine ⟨rfl, ?_⟩
      intro i hi
      simp only [Except.ok.injEq] at hi
      subst hi
      simp [mapGet_mapInsert]

/-- C4, witness: inserting a sentinel-0 account into a fresh repository
assigns id 1, bumps `next_id` to 2 and stores the record with id 1. -/
theorem C4_witness :
    (Bank.new.add_account { id := 0, name := "Alice", balance := 1000 }).2.next_id = 2 ∧
      mapGet (Bank.new.add_account
          { id := 0, name := "Alice", balance := 1000 }).2.accounts 1 =
        some { id := 1, name := "Alice", balance := 1000 } := by
  have h := (C4_insert_id_assignment Bank.new
    { id := 0, name := "Alice", balance := 1000 }).1 rfl
  exact ⟨h.1, (h.2 1 rfl).2⟩

/-- C5 (confirmed): along every call sequence on a fresh repository, the ids
returned by the successful sentinel-0 Inserts are strictly increasing in
call order, no id is ever assigned twice (even with intervening Removes),
and `next_id` strictly exceeds every id ever auto-assigned. -/
theorem C5_auto_ids_strictly_increasing (ops : List Op) :
    List.Pairwise (· < ·) (autoAssignedIdsFrom Bank.new ops) ∧
    (autoAssignedIdsFrom Bank.new ops).Nodup ∧
    ∀ i ∈ autoAssignedIdsFrom Bank.new ops, i ≠ 0 ∧ i < (run ops).next_id := by
  obtain ⟨h1, h2⟩ := autoIds_bounds ops Bank.new
  refine ⟨h1, h1.imp (fun h => Nat.ne_of_lt h), ?_⟩
  intro i hi
  obtain ⟨hl, hr⟩ := h2 i hi
  have h1i : (1 : Nat) ≤ i := hl
  exact ⟨by omega, hr⟩

/-- C5, witness: on the concrete sequence `opsAuto` (auto-inserts assigning
ids 1 and 2, removal of id 1, then another auto-insert) the third assigned
id is 3, which is non-zero and below the final `next_id`. -/
theorem C5_witness :
    3 ∈ autoAssignedIdsFrom Bank.new opsAuto ∧
      (3 : Nat) ≠ 0 ∧ 3 < (run opsAuto).next_id := by
  have hm : 3 ∈ autoAssignedIdsFrom Bank.new opsAuto := by decide
  exact ⟨hm, (C5_auto_ids_strictly_increasing opsAuto).2.2 3 hm⟩

/-- C6 (confirmed): Remove fails with the `NotFound` error exactly when no
stored entry has the requested id; otherwise it returns precisely the record
that was stored under that id, leaves `next_id` unchanged, and (under the
hash-map representation invariant) a Get on that id immediately afterwards
returns absent. -/
theorem C6_remove_spec (b : Bank) (i : Nat) :
    ((b.remove_account i).1 = Except.error (notFoundMsg i) ↔
      b.get_account i = none) ∧
    (∀ a, (b.remove_account i).1 = Except.ok a →
      b.get_account i = some a ∧
      (b.remove_account i).2.next_id = b.next_id ∧
      (b.WF → (b.remove_account i).2.get_account i = none)) := by
  cases hm : mapGet b.accounts i with
  | none =>
      rw [remove_account_absent b i hm]
      constructor
      · simp [Bank.get_account, hm]
      · intro a ha
        simp at ha
  | some a0 =>
      rw [remove_account_present b i a0 hm]
      constructor
      · simp [Bank.get_account, hm]
      · intro a ha
        simp only [Except.ok.injEq] at ha
        subst ha
        refine ⟨by simp [Bank.get_account, hm], rfl, ?_⟩
        intro hwf
        exact mapGet_mapRemoveEntry_self b.accounts i hwf

/-- C6, witness: removing id 1 from the concrete repository `bankA` returns
the stored record, keeps `next_id`, and a subsequent Get returns absent. -/
theorem C6_witness :
    (bankA.remove_account 1).1 =
        Except.ok { id := 1, name := "Alice", balance := 1000 } ∧
      bankA.get_account 1 = some { id := 1, name := "Alice", balance := 1000 } ∧
      (bankA.remove_account 1).2.next_id = bankA.next_id ∧
      (bankA.remove_account 1).2.get_account 1 = none := by
  have hwf : bankA.WF := by
    show (bankA.accounts.map Prod.fst).Nodup
    decide
  have h := (C6_remove_spec bankA 1).2
    { id := 1, name := "Alice", balance := 1000 } rfl
  exact ⟨rfl, h.1, h.2.1, h.2.2 hwf⟩

/-- C7 (confirmed): UpdateBalance on an absent id fails with the `NotFound`
error and leaves the repository completely unchanged; on a present id it
always succeeds and overwrites that account's balance with the new value —
any value, negative included, is accepted (the new balance is universally
quantified, with no validation). -/
theorem C7_update_balance_spec (b : Bank) (i : Nat) (v : Rat) :
    (b.get_account i = none →
      b.update_balance i v = (Except.error (notFoundMsg i), b)) ∧
    (∀ a, b.get_account i = some a →
      (b.update_balance i v).1 = Except.ok () ∧
      (b.update_balance i v).2.get_account i = some { a with balance := v }) := by
  constructor
  · intro h
    exact update_balance_absent b i v h
  · intro a ha
    rw [update_balance_present b i v a ha]
    refine ⟨rfl, ?_⟩
    simp [Bank.get_account, mapGet_mapInsert]

/-- C7, witness: updating the present id 1 of `bankA` to the negative value
-50 succeeds and stores that balance. -/
theorem C7_witness :
    bankA.get_account 1 = some { id := 1, name := "Alice", balance := 1000 } ∧
      (bankA.update_balance 1 (-50)).1 = Except.ok () ∧
      (bankA.update_balance 1 (-50)).2.get_account 1 =
        some { id := 1, name := "Alice", balance := -50 } := by
  have h := (C7_update_balance_spec bankA 1 (-50)).2
    { id := 1, name := "Alice", balance := 1000 } rfl
  exact ⟨rfl, h.1, h.2⟩

/-- C8 (confirmed): on a present id, UpdateBalance is idempotent — calling
it twice in a row with the same value yields exactly the same repository
state as calling it once. -/
theorem C8_update_balance_idempotent (b : Bank) (i : Nat) (v : Rat)
    (h : (b.get_account i).isSome = true) :
    ((b.update_balance i v).2.update_balance i v).2 = (b.update_balance i v).2 := by
  obtain ⟨a, ha⟩ := Option.isSome_iff_exists.mp h
  rw [update_balance_present b i v a ha]
  have hget : mapGet (mapInsert b.accounts i { a with balance := v }) i =
      some { a with balance := v } := by simp [mapGet_mapInsert]
  rw [update_balance_present _ i v { a with balance := v } hget]
  simp [mapInsert_same _ _ _ hget]

/-- C8, witness: updating id 1 of `bankA` to 1500 twice yields the same
state as updating once. -/
theorem C8_witness :
    (bankA.get_account 1).isSome = true ∧
      ((bankA.update_balance 1 1500).2.update_balance 1 1500).2 =
        (bankA.update_balance 1 1500).2 :=
  ⟨rfl, C8_update_balance_idempotent bankA 1 1500 rfl⟩

/-- C9 (confirmed): after any call sequence on a fresh repository, the
number of accounts ListAll returns equals the number of Inserts that
returned Ok minus the number of Removes that returned Ok (the former never
falls below the latter), and a ListAll call does not mutate the repository
state, so it can be repeated with the same result. -/
theorem C9_list_count (ops : List Op) :
    (run ops).list_accounts.length =
      okInsertsFrom Bank.new ops - okRemovesFrom Bank.new ops ∧
    okRemovesFrom Bank.new ops ≤ okInsertsFrom Bank.new ops ∧
    run (ops ++ [Op.listAll]) = run ops := by
  have h : (run ops).accounts.length + okRemovesFrom Bank.new ops =
      Bank.new.accounts.length + okInsertsFrom Bank.new ops :=
    size_runFrom ops Bank.new
  have hz : Bank.new.accounts.length = 0 := rfl
  have hlen : (run ops).list_accounts.length = (run ops).accounts.length := by
    simp [Bank.list_accounts]
  refine ⟨by omega, by omega, ?_⟩
  show runFrom Bank.new (ops ++ [Op.listAll]) = runFrom Bank.new ops
  rw [runFrom_append]
  rfl

/-- C10 (confirmed): a successful UpdateBalance changes only the balance of
the account stored under the given id — that account keeps its id and name,
every other stored account is looked up exactly as before, and `next_id` is
untouched. -/
theorem C10_update_balance_frame (b : Bank) (i : Nat) (v : Rat)
    (h : (b.update_balance i v).1 = Except.ok ()) :
    (b.update_balance i v).2.next_id = b.next_id ∧
    (∀ k, k ≠ i → (b.update_balance i v).2.get_account k = b.get_account k) ∧
    ∃ a, b.get_account i = some a ∧
      (b.update_balance i v).2.get_account i =
        some { id := a.id, name := a.name, balance := v } := by
  cases hm : mapGet b.accounts i with
  | none =>
      rw [update_balance_absent b i v hm] at h
      simp at h
  | some a =>
      rw [update_balance_present b i v a hm]
      refine ⟨rfl, ?_, a, hm, ?_⟩
      · intro k hk
        simp [Bank.get_account, mapGet_mapInsert, Ne.symm hk]
      · simp [Bank.get_account, mapGet_mapInsert]

/-- C10, witness: updating id 1 of the concrete repository `bankA` leaves
the (absent) id 2 lookup and `next_id` untouched while storing the new
balance. -/
theorem C10_witness :
    ((bankA.update_balance 1 42).1 = Except.ok ()) ∧
      (bankA.update_balance 1 42).2.next_id = bankA.next_id ∧
      (bankA.update_balance 1 42).2.get_account 2 = bankA.get_account 2 ∧
      ∃ a, bankA.get_account 1 = some a ∧
        (bankA.update_balance 1 42).2.get_account 1 =
          some { id := a.id, name := a.name, balance := 42 } := by
  have h := C10_update_balance_frame bankA 1 42 rfl
  exact ⟨rfl, h.1, h.2.1 2 (by decide), h.2.2⟩
